import Mathlib

/-!
Verification of the numeric core fronted by the brmsmargins Rcpp bindings.

The visible source (src/src/RcppExports.cpp) contains only the foreign-function
glue: declarations of the four exported routines, their marshaling wrappers,
and the registration table.  The bodies of `integratemvn`, `tab2mat`,
`integratere` and `rowBootMeans` live elsewhere in the package, so those
operations are modelled here from the specification's contracts (sections
4.1-4.4 and 7 of the design document), while the wrapper structure,
signatures and registration table are embedded directly from the glue file.

Doubles are modelled as exact rationals; where the specification's behaviour
depends on non-finite IEEE values (NaN / infinities), the extended type `ExtQ`
carries them explicitly.
-/

deriving instance DecidableEq for Except

/-- Error kinds of the design document, section 7. -/
inductive Err where
  | DimensionMismatch
  | IndexOutOfRange
  | EmptyInput
  | PredictionEvaluationError
  | NumericOverflow
deriving DecidableEq, Repr

/-- A double-precision value: either a finite number (modelled exactly as a
rational) or one of the IEEE non-finite values. -/
inductive ExtQ where
  | fin (q : ℚ)
  | pinf
  | ninf
  | nan
deriving DecidableEq, Repr

/-- Whether a value is finite. -/
def ExtQ.isFinite : ExtQ → Bool
  | .fin _ => true
  | _ => false

/-- IEEE-style addition on extended values. -/
def ExtQ.add : ExtQ → ExtQ → ExtQ
  | .nan, _ => .nan
  | _, .nan => .nan
  | .pinf, .ninf => .nan
  | .ninf, .pinf => .nan
  | .pinf, _ => .pinf
  | _, .pinf => .pinf
  | .ninf, _ => .ninf
  | _, .ninf => .ninf
  | .fin a, .fin b => .fin (a + b)

/-- Scaling of an extended value by a finite rational weight. -/
def ExtQ.smul (w : ℚ) : ExtQ → ExtQ
  | .fin a => .fin (w * a)
  | .pinf => if 0 < w then .pinf else if w < 0 then .ninf else .nan
  | .ninf => if 0 < w then .ninf else if w < 0 then .pinf else .nan
  | .nan => .nan

/-- Division of an extended value by a finite rational; division by zero is
non-finite, recorded here as NaN. -/
def ExtQ.divq : ExtQ → ℚ → ExtQ
  | .fin a, w => if w = 0 then .nan else .fin (a / w)
  | .pinf, w => if 0 < w then .pinf else if w < 0 then .ninf else .nan
  | .ninf, w => if 0 < w then .ninf else if w < 0 then .pinf else .nan
  | .nan, _ => .nan

/-- Dense 2-D matrix (design document section 3): dimensions fixed at
construction, entries stored row by row. -/
@[ext]
structure Mat (α : Type) where
  rows : Nat
  cols : Nat
  data : List (List α)
deriving DecidableEq, Repr

/-- Well-formedness: the stored data really has the declared shape. -/
def wfMat {α : Type} (M : Mat α) : Prop :=
  M.data.length = M.rows ∧ ∀ row ∈ M.data, row.length = M.cols

instance {α : Type} (M : Mat α) : Decidable (wfMat M) := by
  unfold wfMat; infer_instance

/-- Entry (i, j) of a rational matrix, defaulting to 0 out of range. -/
def entryD (M : Mat ℚ) (i j : Nat) : ℚ :=
  (M.data.getD i []).getD j 0

/-- All entries of an extended-value matrix are finite. -/
def matAllFinite (M : Mat ExtQ) : Bool :=
  M.data.all (fun row => row.all ExtQ.isFinite)

/-- Element-wise sum of two matrices (shape taken from the left operand). -/
def matAdd (A B : Mat ExtQ) : Mat ExtQ :=
  ⟨A.rows, A.cols, List.zipWith (List.zipWith ExtQ.add) A.data B.data⟩

/-- Element-wise scaling of a matrix by a rational weight. -/
def matScale (w : ℚ) (M : Mat ExtQ) : Mat ExtQ :=
  ⟨M.rows, M.cols, M.data.map (List.map (ExtQ.smul w))⟩

/-- Element-wise division of a matrix by a rational. -/
def matDivq (M : Mat ExtQ) (w : ℚ) : Mat ExtQ :=
  ⟨M.rows, M.cols, M.data.map (List.map (fun e => ExtQ.divq e w))⟩

/-- Dot product of two rational vectors, as the loop would compute it. -/
def dotQ (a b : List ℚ) : ℚ :=
  (List.zipWith (fun x y => x * y) a b).sum

/-- Modelled from the spec: the body of `integratemvn` is not in the visible
source (RcppExports.cpp holds only its declaration).  Following section 4.1:
given nodes X (n x k), dimensionality k, scale vector sd (length k) and
Cholesky factor chol (k x k), each output row is chol applied to the
corresponding row of X, scaled element-wise by sd; any shape violation fails
with DimensionMismatch. -/
def integratemvn (X : Mat ℚ) (k : Nat) (sd : List ℚ) (chol : Mat ℚ) :
    Except Err (Mat ℚ) :=
  if chol.rows = k ∧ chol.cols = k ∧ sd.length = k ∧ X.cols = k then
    .ok ⟨X.rows, k,
      X.data.map (fun xrow =>
        (List.range k).map (fun j => sd.getD j 0 * dotQ (chol.data.getD j []) xrow))⟩
  else .error .DimensionMismatch

/-- Number of blocks implied by the layout of a table matrix: one block per
stored row (see `tab2mat`). -/
def blockCount (X : Mat ℚ) : Nat := X.data.length

/-- Modelled from the spec: the body of `tab2mat` is not in the visible
source (RcppExports.cpp holds only its declaration).  Section 4.2 fixes that
X encodes stacked sub-matrices and `index` selects the index-th one, but
flags the exact slicing rule as an open convention; we fix the convention
that each block is one stored row of X, so the implied block count is the
number of rows.  The index is 0-based; an index outside [0, blockCount)
fails with IndexOutOfRange. -/
def tab2mat (X : Mat ℚ) (index : Int) : Except Err (Mat ℚ) :=
  if 0 ≤ index ∧ index < (blockCount X : Int) then
    .ok ⟨1, X.cols, [X.data.getD index.toNat []]⟩
  else .error .IndexOutOfRange

/-- Modelled from the spec: the body of `rowBootMeans` is not in the visible
source (RcppExports.cpp holds only its declaration).  Section 4.4: element i
of the result is the mean of row i across the m replicate columns; m = 0
fails with EmptyInput. -/
def rowBootMeans (x : Mat ℚ) : Except Err (List ℚ) :=
  if x.cols = 0 then .error .EmptyInput
  else .ok (x.data.map (fun row => row.sum / (x.cols : ℚ)))

/-- The opaque bundle passed to `integratere`, made explicit as the design
document's section 9 directs: the draws matrix (one draw per row), an
optional explicit weight vector (none means the default uniform weights),
and the host-supplied prediction callback. -/
structure REBundle where
  draws : Mat ExtQ
  weights : Option (List ℚ)
  predict : List ExtQ → Except Unit (Mat ExtQ)

/-- Shape compatibility of the next prediction with the running sum (always
compatible before the first accumulation). -/
def shapeOk : Option (Mat ExtQ) → Mat ExtQ → Bool
  | none, _ => true
  | some a, P => a.rows == P.rows && a.cols == P.cols

/-- One accumulation step: add the weighted prediction to the running sum. -/
def stepSum : Option (Mat ExtQ) → ℚ → Mat ExtQ → Mat ExtQ
  | none, w, P => matScale w P
  | some a, w, P => matAdd a (matScale w P)

/-- Accumulation loop of `integratere` (section 4.3): walk the draws and
weights in step; a callback failure aborts with PredictionEvaluationError, a
shape inconsistency with DimensionMismatch, and a running sum that becomes
non-finite after an accumulation step with NumericOverflow. -/
def accumLoop (predict : List ExtQ → Except Unit (Mat ExtQ)) :
    List (List ExtQ) → List ℚ → Option (Mat ExtQ) → Except Err (Mat ExtQ)
  | [], _, some a => .ok a
  | [], _, none => .error .EmptyInput
  | _ :: _, [], _ => .error .DimensionMismatch
  | r :: rs, w :: ws, acc =>
    match predict r with
    | .error _ => .error .PredictionEvaluationError
    | .ok P =>
      if shapeOk acc P then
        let acc' := stepSum acc w P
        if matAllFinite acc' then accumLoop predict rs ws (some acc')
        else .error .NumericOverflow
      else .error .DimensionMismatch

/-- The weights actually used: the explicit vector when given, otherwise the
default uniform weights (one per draw). -/
def defaultWeights (obj : REBundle) : List ℚ :=
  match obj.weights with
  | some w => w
  | none => List.replicate obj.draws.data.length 1

/-- Divisor of the final average: the sum of the explicit weights, or the
number of draws when unweighted (section 4.3). -/
def weightSum (obj : REBundle) : ℚ :=
  match obj.weights with
  | some w => w.sum
  | none => (obj.draws.data.length : ℚ)

/-- Modelled from the spec: the body of `integratere` is not in the visible
source (RcppExports.cpp holds only its declaration).  Section 4.3: invoke the
callback on each draw, accumulate the weighted predictions, then divide by
the weight sum.  Zero draws is a zero-length required dimension (EmptyInput,
section 7); a weight vector of the wrong length is a shape inconsistency
(DimensionMismatch); a zero weight sum would make every quotient non-finite,
so it is detected as NumericOverflow rather than silently returned. -/
def integratere (obj : REBundle) : Except Err (Mat ExtQ) :=
  if obj.draws.data.isEmpty then .error .EmptyInput
  else
    if (defaultWeights obj).length = obj.draws.data.length then
      match accumLoop obj.predict obj.draws.data (defaultWeights obj) none with
      | .ok acc =>
        if weightSum obj = 0 then .error .NumericOverflow
        else .ok (matDivq acc (weightSum obj))
      | .error e => .error e
    else .error .DimensionMismatch

/-! ## Helper lemmas -/

lemma getD_of_lt {α : Type} (l : List α) (i : Nat) (d : α) (h : i < l.length) :
    l.getD i d = l[i] := by
  simp [List.getD_eq_getElem?_getD, List.getElem?_eq_getElem h]

lemma sum_eq_sum_getD (l : List ℚ) :
    l.sum = ∑ j ∈ Finset.range l.length, l.getD j 0 := by
  induction l with
  | nil => simp
  | cons a t ih =>
    rw [List.sum_cons, List.length_cons, Finset.sum_range_succ']
    simp only [List.getD_cons_succ, List.getD_cons_zero]
    rw [ih]
    exact add_comm _ _

lemma dotQ_eq_sum : ∀ (k : Nat) (a b : List ℚ), a.length = k → b.length = k →
    dotQ a b = ∑ l ∈ Finset.range k, a.getD l 0 * b.getD l 0 := by
  intro k
  induction k with
  | zero =>
    intro a b ha hb
    rw [List.length_eq_zero] at ha hb
    subst ha; subst hb
    simp [dotQ]
  | succ k ih =>
    intro a b ha hb
    cases a with
    | nil => simp at ha
    | cons x a' =>
      cases b with
      | nil => simp at hb
      | cons y b' =>
        simp only [List.length_cons] at ha hb
        have hstep : dotQ (x :: a') (y :: b') = x * y + dotQ a' b' := by
          simp [dotQ]
        rw [hstep, Finset.sum_range_succ']
        simp only [List.getD_cons_succ, List.getD_cons_zero]
        rw [ih a' b' (by omega) (by omega)]
        exact add_comm _ _

/-! ## Claims about integratemvn, tab2mat and rowBootMeans -/

/-- Claim C1: for every matrix X with n rows and exactly k columns, every
length-k vector sd, and every k-by-k matrix chol, integratemvn(X, k, sd,
chol) returns a matrix of shape (n, k) whose row i equals the matrix-vector
product chol times the i-th row of X, scaled element-wise by sd. -/
theorem claim_C1 (X : Mat ℚ) (k : Nat) (sd : List ℚ) (chol : Mat ℚ)
    (hX : wfMat X) (hchol : wfMat chol)
    (hXc : X.cols = k) (hsd : sd.length = k) (hcr : chol.rows = k) (hcc : chol.cols = k) :
    ∃ Y, integratemvn X k sd chol = .ok Y ∧ Y.rows = X.rows ∧ Y.cols = k ∧ wfMat Y ∧
      ∀ i j, i < X.rows → j < k →
        entryD Y i j = sd.getD j 0 * ∑ l ∈ Finset.range k, entryD chol j l * entryD X i l := by
  refine ⟨⟨X.rows, k,
      X.data.map (fun xrow =>
        (List.range k).map (fun j => sd.getD j 0 * dotQ (chol.data.getD j []) xrow))⟩,
    ?_, rfl, rfl, ?_, ?_⟩
  · unfold integratemvn
    rw [if_pos ⟨hcr, hcc, hsd, hXc⟩]
  · constructor
    · simp [hX.1]
    · intro row hrow
      simp only [List.mem_map] at hrow
      obtain ⟨xrow, -, rfl⟩ := hrow
      simp
  · intro i j hi hj
    have hilen : i < X.data.length := by rw [hX.1]; exact hi
    unfold entryD
    simp only
    rw [getD_of_lt _ i _ (by simpa using hilen), List.getElem_map,
      getD_of_lt _ j _ (by simpa using hj), List.getElem_map, List.getElem_range]
    congr 1
    have hjc : j < chol.data.length := by rw [hchol.1, hcr]; exact hj
    have hrowc : (chol.data.getD j []).length = k := by
      rw [getD_of_lt _ j _ hjc, hchol.2 _ (List.getElem_mem _), hcc]
    have hrowx : (X.data[i]).length = k := by
      rw [hX.2 _ (List.getElem_mem _), hXc]
    rw [dotQ_eq_sum k _ _ hrowc hrowx]
    refine Finset.sum_congr rfl (fun l _ => ?_)
    congr 1
    rw [getD_of_lt _ i _ hilen]

/-- Witness for claim C1 at a concrete input. -/
theorem claim_C1_wit :
    ∃ Y, integratemvn ⟨2, 2, [[1, 0], [0, 1]]⟩ 2 [2, 3] ⟨2, 2, [[1, 0], [1, 1]]⟩ = .ok Y ∧
      Y.rows = 2 ∧ Y.cols = 2 ∧ wfMat Y ∧
      ∀ i j, i < 2 → j < 2 →
        entryD Y i j = [(2 : ℚ), 3].getD j 0 *
          ∑ l ∈ Finset.range 2,
            entryD ⟨2, 2, [[1, 0], [1, 1]]⟩ j l * entryD ⟨2, 2, [[1, 0], [0, 1]]⟩ i l := by
  have h := claim_C1 ⟨2, 2, [[1, 0], [0, 1]]⟩ 2 [2, 3] ⟨2, 2, [[1, 0], [1, 1]]⟩
    (by decide) (by decide) rfl rfl rfl rfl
  exact h

/-- Claim C6: whenever chol is not k-by-k, or sd does not have length k, or
X does not have exactly k columns, integratemvn fails with DimensionMismatch
instead of returning a matrix. -/
theorem claim_C6 (X : Mat ℚ) (k : Nat) (sd : List ℚ) (chol : Mat ℚ)
    (h : ¬(chol.rows = k ∧ chol.cols = k ∧ sd.length = k ∧ X.cols = k)) :
    integratemvn X k sd chol = .error .DimensionMismatch := by
  unfold integratemvn
  rw [if_neg h]

/-- Witness for claim C6 at a concrete input (chol is 1-by-1 while k = 2). -/
theorem claim_C6_wit :
    integratemvn ⟨1, 1, [[1]]⟩ 2 [1] ⟨1, 1, [[1]]⟩ = .error .DimensionMismatch :=
  claim_C6 _ _ _ _ (by decide)

/-- Claim C7: for every table matrix X and every index at least the number
of blocks implied by X's layout, tab2mat fails with IndexOutOfRange instead
of returning a sub-matrix. -/
theorem claim_C7 (X : Mat ℚ) (index : Int) (h : (blockCount X : Int) ≤ index) :
    tab2mat X index = .error .IndexOutOfRange := by
  unfold tab2mat
  rw [if_neg]
  rintro ⟨-, hlt⟩
  exact absurd hlt (not_lt.mpr h)

/-- Witness for claim C7 at a concrete input (two blocks, index 3). -/
theorem claim_C7_wit :
    tab2mat ⟨2, 2, [[1, 2], [3, 4]]⟩ 3 = .error .IndexOutOfRange :=
  claim_C7 _ _ (by decide)

/-- Claim C4: for every matrix x with n rows, m columns and m at least 1,
rowBootMeans(x) returns a vector of length n whose element i is the
arithmetic mean of row i across all m columns; in particular
rowBootMeans([[1,2,3],[4,5,6]]) equals [2, 5]. -/
theorem claim_C4 :
    (∀ x : Mat ℚ, wfMat x → 1 ≤ x.cols →
      ∃ v, rowBootMeans x = .ok v ∧ v.length = x.rows ∧
        ∀ i, i < x.rows →
          v.getD i 0 = (∑ j ∈ Finset.range x.cols, entryD x i j) / (x.cols : ℚ)) ∧
    rowBootMeans ⟨2, 3, [[1, 2, 3], [4, 5, 6]]⟩ = .ok [2, 5] := by
  constructor
  · intro x hwf hc
    refine ⟨x.data.map (fun row => row.sum / (x.cols : ℚ)), ?_, ?_, ?_⟩
    · unfold rowBootMeans
      rw [if_neg (by omega)]
    · simp [hwf.1]
    · intro i hi
      have hilen : i < x.data.length := by rw [hwf.1]; exact hi
      rw [getD_of_lt _ i _ (by simpa using hilen), List.getElem_map]
      congr 1
      rw [sum_eq_sum_getD (x.data[i]), hwf.2 _ (List.getElem_mem _)]
      refine Finset.sum_congr rfl (fun j _ => ?_)
      unfold entryD
      rw [getD_of_lt _ i _ hilen]
  · unfold rowBootMeans
    norm_num

/-- Witness for claim C4, applying its general part at a concrete input. -/
theorem claim_C4_wit :
    ∃ v, rowBootMeans ⟨1, 2, [[1, 3]]⟩ = .ok v ∧ v.length = 1 ∧
      ∀ i, i < 1 →
        v.getD i 0 = (∑ j ∈ Finset.range 2, entryD ⟨1, 2, [[1, 3]]⟩ i j) / ((2 : Nat) : ℚ) := by
  have h := claim_C4.1 ⟨1, 2, [[1, 3]]⟩ (by decide) (by decide)
  exact h

/-- Claim C8: for every matrix x with zero columns, rowBootMeans fails with
EmptyInput instead of returning a vector. -/
theorem claim_C8 (x : Mat ℚ) (h : x.cols = 0) :
    rowBootMeans x = .error .EmptyInput := by
  unfold rowBootMeans
  rw [if_pos h]

/-- Witness for claim C8 at a concrete input. -/
theorem claim_C8_wit :
    rowBootMeans ⟨2, 0, [[], []]⟩ = .error .EmptyInput :=
  claim_C8 _ rfl

/-! ## The glue layer itself (embedded from src/src/RcppExports.cpp) -/

/-- Host-environment value kinds appearing in the exported signatures
(arma::mat / NumericMatrix, arma::vec / NumericVector, int, List). -/
inductive RType where
  | rMatrix
  | rVector
  | rInt
  | rList
deriving DecidableEq, Repr

/-- An exported routine: registered symbol name, argument types in order,
and return type, as declared in RcppExports.cpp. -/
structure ExportedFn where
  cName : String
  argTypes : List RType
  retType : RType
deriving DecidableEq, Repr

/-- integratemvn(arma::mat X, int k, arma::vec sd, arma::mat chol) -> arma::mat. -/
def integratemvnSig : ExportedFn :=
  ⟨"_brmsmargins_integratemvn", [.rMatrix, .rInt, .rVector, .rMatrix], .rMatrix⟩

/-- tab2mat(arma::mat X, int index) -> arma::mat. -/
def tab2matSig : ExportedFn :=
  ⟨"_brmsmargins_tab2mat", [.rMatrix, .rInt], .rMatrix⟩

/-- integratere(List obj) -> arma::mat. -/
def integratereSig : ExportedFn :=
  ⟨"_brmsmargins_integratere", [.rList], .rMatrix⟩

/-- rowBootMeans(NumericMatrix x) -> NumericVector. -/
def rowBootMeansSig : ExportedFn :=
  ⟨"_brmsmargins_rowBootMeans", [.rMatrix], .rVector⟩

/-- The four exported signatures, in declaration order. -/
def exportedSigs : List ExportedFn :=
  [integratemvnSig, tab2matSig, integratereSig, rowBootMeansSig]

/-- The CallEntries registration table of RcppExports.cpp: symbol name and
declared argument count, in registration order. -/
def callEntries : List (String × Nat) :=
  [("_brmsmargins_integratemvn", 4),
   ("_brmsmargins_tab2mat", 2),
   ("_brmsmargins_integratere", 1),
   ("_brmsmargins_rowBootMeans", 1)]

/-- One step of an Rcpp marshaling wrapper body. -/
inductive WStep where
  | declResult
  | instRNGScope
  | readInputParam
  | callWrapped
  | wrapResult
deriving DecidableEq, Repr

/-- Body of _brmsmargins_integratemvn (RcppExports.cpp lines 16-27). -/
def wrapperIntegratemvn : List WStep :=
  [.declResult, .instRNGScope, .readInputParam, .readInputParam, .readInputParam,
   .readInputParam, .callWrapped, .wrapResult]

/-- Body of _brmsmargins_tab2mat (RcppExports.cpp lines 30-39). -/
def wrapperTab2mat : List WStep :=
  [.declResult, .instRNGScope, .readInputParam, .readInputParam, .callWrapped, .wrapResult]

/-- Body of _brmsmargins_integratere (RcppExports.cpp lines 42-50). -/
def wrapperIntegratere : List WStep :=
  [.declResult, .instRNGScope, .readInputParam, .callWrapped, .wrapResult]

/-- Body of _brmsmargins_rowBootMeans (RcppExports.cpp lines 53-61). -/
def wrapperRowBootMeans : List WStep :=
  [.declResult, .instRNGScope, .readInputParam, .callWrapped, .wrapResult]

/-- The four wrapper bodies, in source order. -/
def allWrappers : List (List WStep) :=
  [wrapperIntegratemvn, wrapperTab2mat, wrapperIntegratere, wrapperRowBootMeans]

/-- Accesses to R's global RNG state during one wrapper call. -/
inductive RNGEvent where
  | readRNGState
  | invokeWrapped
  | writeRNGState
deriving DecidableEq, Repr

/-- Modelled from the spec: the semantics of Rcpp::RNGScope (library code,
not part of this repository) - its constructor reads R's global RNG state
and its destructor, at scope exit after the wrapped call, writes the state
back.  `rngEvents` lists the RNG-state accesses a wrapper body performs, in
order. -/
def rngEvents (body : List WStep) : List RNGEvent :=
  (body.filterMap fun s =>
    match s with
    | .instRNGScope => some .readRNGState
    | .callWrapped => some .invokeWrapped
    | _ => none) ++
  (if body.contains .instRNGScope then [.writeRNGState] else [])

/-- Claim C9: the four exported functions have exactly the signatures of the
interface table - integratemvn(Matrix, int, Vector, Matrix) -> Matrix,
tab2mat(Matrix, int) -> Matrix, integratere(opaque bundle) -> Matrix,
rowBootMeans(Matrix) -> Vector - and are registered with argument counts
4, 2, 1 and 1 respectively, in that argument order. -/
theorem claim_C9 :
    exportedSigs.map (fun f => (f.cName, f.argTypes.length)) = callEntries ∧
    integratemvnSig.argTypes = [.rMatrix, .rInt, .rVector, .rMatrix] ∧
    integratemvnSig.retType = .rMatrix ∧
    tab2matSig.argTypes = [.rMatrix, .rInt] ∧ tab2matSig.retType = .rMatrix ∧
    integratereSig.argTypes = [.rList] ∧ integratereSig.retType = .rMatrix ∧
    rowBootMeansSig.argTypes = [.rMatrix] ∧ rowBootMeansSig.retType = .rVector ∧
    callEntries.map Prod.snd = [4, 2, 1, 1] := by
  decide

/-- Claim C10: every one of the four exported wrappers instantiates an
Rcpp::RNGScope before invoking its wrapped function, so R's global RNG state
is read and, at scope exit, written back around every call - including the
calls to tab2mat and rowBootMeans - and no call leaves the host RNG state
untouched. -/
theorem claim_C10 (body : List WStep) (h : body ∈ allWrappers) :
    rngEvents body = [.readRNGState, .invokeWrapped, .writeRNGState] := by
  fin_cases h <;> decide

/-- Witness for claim C10 at a concrete wrapper. -/
theorem claim_C10_wit :
    rngEvents wrapperTab2mat = [.readRNGState, .invokeWrapped, .writeRNGState] :=
  claim_C10 wrapperTab2mat (by decide)

/-! ## Helper lemmas about the accumulation algebra -/

lemma smul_one (e : ExtQ) : ExtQ.smul 1 e = e := by
  cases e <;> simp [ExtQ.smul]

lemma matScale_one (M : Mat ExtQ) : matScale 1 M = M := by
  cases M with
  | mk r c d =>
    simp only [matScale, Mat.mk.injEq, true_and]
    induction d with
    | nil => rfl
    | cons row t ih =>
      simp only [List.map_cons, List.cons.injEq]
      refine ⟨?_, ih⟩
      induction row with
      | nil => rfl
      | cons e u ihe => simp [smul_one, ihe]

lemma all_finite_smul (w : ℚ) (row : List ExtQ) (h : row.all ExtQ.isFinite = true) :
    (row.map (ExtQ.smul w)).all ExtQ.isFinite = true := by
  induction row with
  | nil => rfl
  | cons e u ih =>
    simp only [List.all_cons, Bool.and_eq_true] at h
    cases e with
    | fin q => simpa [ExtQ.smul, ExtQ.isFinite] using ih h.2
    | pinf => simp [ExtQ.isFinite] at h
    | ninf => simp [ExtQ.isFinite] at h
    | nan => simp [ExtQ.isFinite] at h

lemma matAllFinite_scale (w : ℚ) (M : Mat ExtQ) (h : matAllFinite M = true) :
    matAllFinite (matScale w M) = true := by
  cases M with
  | mk r c d =>
    simp only [matAllFinite, matScale] at h ⊢
    induction d with
    | nil => rfl
    | cons row t ih =>
      simp only [List.all_cons, Bool.and_eq_true] at h
      simp only [List.map_cons, List.all_cons, Bool.and_eq_true]
      exact ⟨all_finite_smul w row h.1, ih h.2⟩

lemma zip_add_scaled (j : ℚ) (row : List ExtQ) (h : row.all ExtQ.isFinite = true) :
    List.zipWith ExtQ.add (row.map (ExtQ.smul j)) row = row.map (ExtQ.smul (j + 1)) := by
  induction row with
  | nil => rfl
  | cons e u ih =>
    simp only [List.all_cons, Bool.and_eq_true] at h
    cases e with
    | fin q =>
      simp only [List.map_cons, List.zipWith_cons_cons, ExtQ.smul, ExtQ.add]
      rw [ih h.2, show j * q + q = (j + 1) * q from by ring]
    | pinf => simp [ExtQ.isFinite] at h
    | ninf => simp [ExtQ.isFinite] at h
    | nan => simp [ExtQ.isFinite] at h

lemma mat_add_scaled (j : ℚ) (C : Mat ExtQ) (h : matAllFinite C = true) :
    matAdd (matScale j C) C = matScale (j + 1) C := by
  cases C with
  | mk r c d =>
    simp only [matAllFinite] at h
    simp only [matAdd, matScale, Mat.mk.injEq, true_and]
    induction d with
    | nil => rfl
    | cons row t ih =>
      simp only [List.all_cons, Bool.and_eq_true] at h
      simp only [List.map_cons, List.zipWith_cons_cons, List.cons.injEq]
      exact ⟨zip_add_scaled j row h.1, ih h.2⟩

lemma map_div_scale (q : ℚ) (hq : q ≠ 0) (row : List ExtQ)
    (h : row.all ExtQ.isFinite = true) :
    (row.map (ExtQ.smul q)).map (fun e => ExtQ.divq e q) = row := by
  induction row with
  | nil => rfl
  | cons e u ih =>
    simp only [List.all_cons, Bool.and_eq_true] at h
    cases e with
    | fin a =>
      have hd : ExtQ.divq (ExtQ.smul q (ExtQ.fin a)) q = ExtQ.fin a := by
        simp only [ExtQ.smul, ExtQ.divq, if_neg hq]
        rw [mul_div_cancel_left₀ a hq]
      simp only [List.map_cons]
      rw [hd, ih h.2]
    | pinf => simp [ExtQ.isFinite] at h
    | ninf => simp [ExtQ.isFinite] at h
    | nan => simp [ExtQ.isFinite] at h

lemma matDivq_scale (q : ℚ) (hq : q ≠ 0) (C : Mat ExtQ) (h : matAllFinite C = true) :
    matDivq (matScale q C) q = C := by
  cases C with
  | mk r c d =>
    simp only [matAllFinite] at h
    simp only [matDivq, matScale, Mat.mk.injEq, true_and]
    induction d with
    | nil => rfl
    | cons row t ih =>
      simp only [List.all_cons, Bool.and_eq_true] at h
      simp only [List.map_cons, List.cons.injEq]
      exact ⟨map_div_scale q hq row h.1, ih h.2⟩

lemma all_finite_divq_row (q : ℚ) (hq : ¬q = 0) (row : List ExtQ)
    (h : row.all ExtQ.isFinite = true) :
    (row.map (fun e => ExtQ.divq e q)).all ExtQ.isFinite = true := by
  induction row with
  | nil => rfl
  | cons e u ih =>
    simp only [List.all_cons, Bool.and_eq_true] at h
    cases e with
    | fin a =>
      simp only [List.map_cons, List.all_cons, Bool.and_eq_true]
      exact ⟨by simp [ExtQ.divq, if_neg hq, ExtQ.isFinite], ih h.2⟩
    | pinf => simp [ExtQ.isFinite] at h
    | ninf => simp [ExtQ.isFinite] at h
    | nan => simp [ExtQ.isFinite] at h

lemma matAllFinite_divq (M : Mat ExtQ) (q : ℚ) (hq : ¬q = 0)
    (h : matAllFinite M = true) : matAllFinite (matDivq M q) = true := by
  cases M with
  | mk r c d =>
    simp only [matAllFinite, matDivq] at h ⊢
    induction d with
    | nil => rfl
    | cons row t ih =>
      simp only [List.all_cons, Bool.and_eq_true] at h
      simp only [List.map_cons, List.all_cons, Bool.and_eq_true]
      exact ⟨all_finite_divq_row q hq row h.1, ih h.2⟩

/-! ## Unfolding and invariants of the accumulation loop -/

lemma accumLoop_nil_some (pred : List ExtQ → Except Unit (Mat ExtQ)) (ws : List ℚ)
    (a : Mat ExtQ) : accumLoop pred [] ws (some a) = .ok a := rfl

lemma accumLoop_nil_none (pred : List ExtQ → Except Unit (Mat ExtQ)) (ws : List ℚ) :
    accumLoop pred [] ws none = .error .EmptyInput := rfl

lemma accumLoop_ws_nil (pred : List ExtQ → Except Unit (Mat ExtQ)) (r : List ExtQ)
    (rs : List (List ExtQ)) (acc : Option (Mat ExtQ)) :
    accumLoop pred (r :: rs) [] acc = .error .DimensionMismatch := rfl

lemma accumLoop_cons (pred : List ExtQ → Except Unit (Mat ExtQ)) (r : List ExtQ)
    (rs : List (List ExtQ)) (w : ℚ) (ws : List ℚ) (acc : Option (Mat ExtQ)) :
    accumLoop pred (r :: rs) (w :: ws) acc =
      match pred r with
      | .error _ => .error .PredictionEvaluationError
      | .ok P =>
        if shapeOk acc P then
          (if matAllFinite (stepSum acc w P) then accumLoop pred rs ws (some (stepSum acc w P))
           else .error .NumericOverflow)
        else .error .DimensionMismatch := rfl

lemma shapeOk_scale (j : ℚ) (C : Mat ExtQ) : shapeOk (some (matScale j C)) C = true := by
  simp [shapeOk, matScale]

lemma accumLoop_const (C : Mat ExtQ) (hC : matAllFinite C = true) :
    ∀ (rs : List (List ExtQ)) (j : ℚ),
      accumLoop (fun _ => .ok C) rs (List.replicate rs.length 1) (some (matScale j C)) =
        .ok (matScale (j + (rs.length : ℚ)) C) := by
  intro rs
  induction rs with
  | nil => intro j; simp [accumLoop_nil_some]
  | cons r rs ih =>
    intro j
    have hstep : stepSum (some (matScale j C)) 1 C = matScale (j + 1) C := by
      rw [stepSum, matScale_one, mat_add_scaled j C hC]
    rw [List.length_cons, List.replicate_succ, accumLoop_cons]
    simp only [hstep, if_pos (shapeOk_scale j C), if_pos (matAllFinite_scale (j + 1) C hC)]
    rw [ih (j + 1)]
    congr 2
    push_cast
    ring

lemma accumLoop_cons_err (pred : List ExtQ → Except Unit (Mat ExtQ)) (r : List ExtQ)
    (rs : List (List ExtQ)) (w : ℚ) (ws : List ℚ) (acc : Option (Mat ExtQ)) (e : Unit)
    (hp : pred r = .error e) :
    accumLoop pred (r :: rs) (w :: ws) acc = .error .PredictionEvaluationError := by
  rw [accumLoop_cons, hp]

lemma accumLoop_cons_ok (pred : List ExtQ → Except Unit (Mat ExtQ)) (r : List ExtQ)
    (rs : List (List ExtQ)) (w : ℚ) (ws : List ℚ) (acc : Option (Mat ExtQ)) (P : Mat ExtQ)
    (hp : pred r = .ok P) :
    accumLoop pred (r :: rs) (w :: ws) acc =
      if shapeOk acc P then
        (if matAllFinite (stepSum acc w P) then accumLoop pred rs ws (some (stepSum acc w P))
         else .error .NumericOverflow)
      else .error .DimensionMismatch := by
  rw [accumLoop_cons, hp]

lemma accumLoop_fail_not_ok (pred : List ExtQ → Except Unit (Mat ExtQ)) :
    ∀ (rs : List (List ExtQ)) (ws : List ℚ) (acc : Option (Mat ExtQ)) (r : List ExtQ),
      r ∈ rs → pred r = .error () → ∀ M, accumLoop pred rs ws acc ≠ .ok M := by
  intro rs
  induction rs with
  | nil => intro ws acc r hmem; exact absurd hmem (List.not_mem_nil r)
  | cons r' rs ih =>
    intro ws acc r hmem hfail M
    cases ws with
    | nil => rw [accumLoop_ws_nil]; exact fun h => Except.noConfusion h
    | cons w ws =>
      cases hp : pred r' with
      | error e =>
        rw [accumLoop_cons_err pred r' rs w ws acc e hp]
        exact fun h => Except.noConfusion h
      | ok P =>
        rcases List.mem_cons.mp hmem with rfl | hmem'
        · rw [hp] at hfail
          exact absurd hfail (fun h => Except.noConfusion h)
        · rw [accumLoop_cons_ok pred r' rs w ws acc P hp]
          by_cases hs : shapeOk acc P = true
          · rw [if_pos hs]
            by_cases hf : matAllFinite (stepSum acc w P) = true
            · rw [if_pos hf]
              exact ih ws (some (stepSum acc w P)) r hmem' hfail M
            · rw [if_neg hf]
              exact fun h => Except.noConfusion h
          · rw [if_neg hs]
            exact fun h => Except.noConfusion h

lemma accumLoop_ok_finite (pred : List ExtQ → Except Unit (Mat ExtQ)) :
    ∀ (rs : List (List ExtQ)) (ws : List ℚ) (acc : Option (Mat ExtQ)) (M : Mat ExtQ),
      (∀ A, acc = some A → matAllFinite A = true) →
      accumLoop pred rs ws acc = .ok M → matAllFinite M = true := by
  intro rs
  induction rs with
  | nil =>
    intro ws acc M hacc h
    cases acc with
    | some a =>
      rw [accumLoop_nil_some] at h
      injection h with h'
      rw [← h']
      exact hacc a rfl
    | none =>
      rw [accumLoop_nil_none] at h
      exact Except.noConfusion h
  | cons r rs ih =>
    intro ws acc M hacc h
    cases ws with
    | nil =>
      rw [accumLoop_ws_nil] at h
      exact Except.noConfusion h
    | cons w ws =>
      cases hp : pred r with
      | error e =>
        rw [accumLoop_cons_err pred r rs w ws acc e hp] at h
        exact Except.noConfusion h
      | ok P =>
        rw [accumLoop_cons_ok pred r rs w ws acc P hp] at h
        by_cases hs : shapeOk acc P = true
        · rw [if_pos hs] at h
          by_cases hf : matAllFinite (stepSum acc w P) = true
          · rw [if_pos hf] at h
            refine ih ws (some (stepSum acc w P)) M ?_ h
            intro A hA
            injection hA with hA'
            rw [← hA']
            exact hf
          · rw [if_neg hf] at h
            exact Except.noConfusion h
        · rw [if_neg hs] at h
          exact Except.noConfusion h

lemma integratere_eq (obj : REBundle) (r : List ExtQ) (rs : List (List ExtQ)) (A : Mat ExtQ)
    (hdata : obj.draws.data = r :: rs)
    (hlen : (defaultWeights obj).length = obj.draws.data.length)
    (hloop : accumLoop obj.predict obj.draws.data (defaultWeights obj) none = .ok A)
    (hz : ¬weightSum obj = 0) :
    integratere obj = .ok (matDivq A (weightSum obj)) := by
  unfold integratere
  rw [hdata] at hloop hlen ⊢
  rw [if_neg (by simp), if_pos hlen, hloop]
  show (if weightSum obj = 0 then Except.error Err.NumericOverflow
      else Except.ok (matDivq A (weightSum obj))) = Except.ok (matDivq A (weightSum obj))
  rw [if_neg hz]

/-! ## Claims about integratere -/

/-- Claim C2 counterexample: the claim quantifies over every constant
prediction matrix C, but when C contains a non-finite entry (here the 1-by-1
matrix [[NaN]]), the NumericOverflow guard mandated by the same
specification fires on the very first accumulation step, so integratere
fails instead of returning C - even with one draw and uniform weights. -/
theorem claim_C2_cex :
    (⟨⟨1, 1, [[ExtQ.fin 0]]⟩, none, fun _ => .ok ⟨1, 1, [[ExtQ.nan]]⟩⟩ :
        REBundle).draws.data.length = 1 ∧
    integratere ⟨⟨1, 1, [[ExtQ.fin 0]]⟩, none, fun _ => .ok ⟨1, 1, [[ExtQ.nan]]⟩⟩ =
      .error .NumericOverflow ∧
    integratere ⟨⟨1, 1, [[ExtQ.fin 0]]⟩, none, fun _ => .ok ⟨1, 1, [[ExtQ.nan]]⟩⟩ ≠
      .ok ⟨1, 1, [[ExtQ.nan]]⟩ := by
  refine ⟨rfl, by decide, by decide⟩

/-- Claim C2 (amended): for every number of draws at least 1, if the
prediction callback returns the same constant matrix C for every draw, the
weights are the default uniform weights, and every entry of C is finite,
then integratere returns exactly the matrix C.  (The finiteness proviso is
forced: a non-finite entry of C trips the specification's own
NumericOverflow guard, see the counterexample.) -/
theorem claim_C2_amended (C : Mat ExtQ) (obj : REBundle)
    (hpred : obj.predict = fun _ => .ok C) (hw : obj.weights = none)
    (hne : obj.draws.data ≠ []) (hfin : matAllFinite C = true) :
    integratere obj = .ok C := by
  obtain ⟨r, rs, hdata⟩ : ∃ r rs, obj.draws.data = r :: rs := by
    cases hd : obj.draws.data with
    | nil => exact absurd hd hne
    | cons a t => exact ⟨a, t, rfl⟩
  have hws : defaultWeights obj = List.replicate (r :: rs).length 1 := by
    rw [defaultWeights, hw, hdata]
  have hlen : (defaultWeights obj).length = obj.draws.data.length := by
    rw [hws, hdata, List.length_replicate]
  have hz : ¬weightSum obj = 0 := by
    rw [weightSum, hw, hdata, List.length_cons]
    exact Nat.cast_ne_zero.mpr (Nat.succ_ne_zero rs.length)
  have hWsum : weightSum obj = ((rs.length + 1 : ℕ) : ℚ) := by
    rw [weightSum, hw, hdata, List.length_cons]
  have hloop : accumLoop obj.predict obj.draws.data (defaultWeights obj) none =
      .ok (matScale ((rs.length + 1 : ℕ) : ℚ) C) := by
    rw [hpred, hdata, hws, List.length_cons, List.replicate_succ]
    rw [accumLoop_cons_ok _ r rs 1 _ none C rfl]
    have h1 : stepSum none 1 C = matScale 1 C := rfl
    rw [if_pos (show shapeOk none C = true from rfl), h1,
      if_pos (matAllFinite_scale 1 C hfin), accumLoop_const C hfin rs 1]
    congr 2
    push_cast
    ring
  rw [integratere_eq obj r rs _ hdata hlen hloop hz, hWsum,
    matDivq_scale _ (by rw [← hWsum]; exact hz) C hfin]

/-- Witness for claim C2 (amended) at a concrete input: three draws, the
constant finite prediction [[2, 3]], default uniform weights. -/
theorem claim_C2_wit :
    integratere ⟨⟨3, 1, [[ExtQ.fin 0], [ExtQ.fin 0], [ExtQ.fin 0]]⟩, none,
        fun _ => .ok ⟨1, 2, [[ExtQ.fin 2, ExtQ.fin 3]]⟩⟩ =
      .ok ⟨1, 2, [[ExtQ.fin 2, ExtQ.fin 3]]⟩ :=
  claim_C2_amended ⟨1, 2, [[ExtQ.fin 2, ExtQ.fin 3]]⟩ _ rfl rfl (by decide) (by decide)

/-- Input for the C3 counterexample: two draws; the callback returns the
non-finite prediction [[NaN]] for the first draw and fails on the second. -/
def c3Bundle : REBundle :=
  ⟨⟨2, 1, [[ExtQ.fin 0], [ExtQ.fin 1]]⟩, none,
   fun r => if r = [ExtQ.fin 1] then .error () else .ok ⟨1, 1, [[ExtQ.nan]]⟩⟩

/-- Claim C3 counterexample: the callback fails on the second draw, yet
integratere does not fail with PredictionEvaluationError - the first draw's
non-finite prediction already triggers NumericOverflow before the failing
draw is reached.  (It still returns no matrix.) -/
theorem claim_C3_cex :
    [ExtQ.fin 1] ∈ c3Bundle.draws.data ∧
    c3Bundle.predict [ExtQ.fin 1] = .error () ∧
    integratere c3Bundle = .error .NumericOverflow ∧
    integratere c3Bundle ≠ .error .PredictionEvaluationError := by
  refine ⟨by decide, by decide, by decide, by decide⟩

/-- Claim C3 (amended): if the prediction callback fails on any draw,
integratere never returns a matrix - no partial average over fewer draws is
ever produced; and when the loop reaches a draw whose callback fails, it
aborts at that draw with PredictionEvaluationError.  (An earlier draw may
instead trigger its own failure first, such as NumericOverflow, in which
case that error is reported - see the counterexample.) -/
theorem claim_C3_amended :
    (∀ (obj : REBundle) (r : List ExtQ), r ∈ obj.draws.data →
      obj.predict r = .error () → ∀ M, integratere obj ≠ .ok M) ∧
    (∀ (pred : List ExtQ → Except Unit (Mat ExtQ)) (r : List ExtQ)
        (rs : List (List ExtQ)) (w : ℚ) (ws : List ℚ) (acc : Option (Mat ExtQ)),
      pred r = .error () →
      accumLoop pred (r :: rs) (w :: ws) acc = .error .PredictionEvaluationError) := by
  constructor
  · intro obj r hmem hfail M h
    unfold integratere at h
    split at h
    · exact Except.noConfusion h
    · split at h
      · split at h
        next acc heq =>
          exact accumLoop_fail_not_ok obj.predict obj.draws.data
            (defaultWeights obj) none r hmem hfail acc heq
        next e heq => exact Except.noConfusion h
      · exact Except.noConfusion h
  · intro pred r rs w ws acc hfail
    exact accumLoop_cons_err pred r rs w ws acc () hfail

/-- Witness for claim C3 (amended) at a concrete input: a callback that
fails on the (only) draw makes integratere return no matrix, and the loop
aborts with PredictionEvaluationError. -/
theorem claim_C3_wit :
    (∀ M, integratere ⟨⟨1, 1, [[ExtQ.fin 0]]⟩, none, fun _ => .error ()⟩ ≠ .ok M) ∧
    accumLoop (fun _ => .error ()) [[ExtQ.fin 0]] [1] none =
      .error .PredictionEvaluationError :=
  ⟨fun M => claim_C3_amended.1 ⟨⟨1, 1, [[ExtQ.fin 0]]⟩, none, fun _ => .error ()⟩
      [ExtQ.fin 0] (by decide) rfl M,
   claim_C3_amended.2 (fun _ => .error ()) [ExtQ.fin 0] [] 1 [] none rfl⟩

/-- Claim C5: during integratere's accumulation over draws, a running sum
with a non-finite element after an accumulation step makes the loop fail
with NumericOverflow; and integratere never returns a matrix containing a
non-finite (or otherwise corrupted) value. -/
theorem claim_C5 :
    (∀ (pred : List ExtQ → Except Unit (Mat ExtQ)) (r : List ExtQ)
        (rs : List (List ExtQ)) (w : ℚ) (ws : List ℚ) (acc : Option (Mat ExtQ))
        (P : Mat ExtQ),
      pred r = .ok P → shapeOk acc P = true → matAllFinite (stepSum acc w P) = false →
      accumLoop pred (r :: rs) (w :: ws) acc = .error .NumericOverflow) ∧
    (∀ (obj : REBundle) (M : Mat ExtQ), integratere obj = .ok M → matAllFinite M = true) := by
  constructor
  · intro pred r rs w ws acc P hp hs hf
    rw [accumLoop_cons_ok pred r rs w ws acc P hp, if_pos hs, if_neg (by simp [hf])]
  · intro obj M h
    unfold integratere at h
    split at h
    · exact Except.noConfusion h
    · split at h
      · split at h
        next acc heq =>
          split at h
          · exact Except.noConfusion h
          next hz =>
            injection h with h'
            rw [← h']
            exact matAllFinite_divq acc (weightSum obj) hz
              (accumLoop_ok_finite obj.predict obj.draws.data (defaultWeights obj) none acc
                (fun A hA => Option.noConfusion hA) heq)
        next e heq => exact Except.noConfusion h
      · exact Except.noConfusion h

/-- Witness for claim C5: the first accumulation step over the non-finite
prediction [[NaN]] yields NumericOverflow, and a concrete successful
integratere run (one draw, constant finite prediction [[4]]) returns a
matrix whose entries are all finite. -/
theorem claim_C5_wit :
    accumLoop (fun _ => .ok ⟨1, 1, [[ExtQ.nan]]⟩) [[ExtQ.fin 0]] [1] none =
      .error .NumericOverflow ∧
    matAllFinite (matDivq (matScale 1 ⟨1, 1, [[ExtQ.fin 4]]⟩)
      (weightSum ⟨⟨1, 1, [[ExtQ.fin 0]]⟩, none, fun _ => .ok ⟨1, 1, [[ExtQ.fin 4]]⟩⟩)) =
      true := by
  constructor
  · exact claim_C5.1 (fun _ => .ok ⟨1, 1, [[ExtQ.nan]]⟩) [ExtQ.fin 0] [] 1 [] none
      ⟨1, 1, [[ExtQ.nan]]⟩ rfl rfl (by decide)
  · refine claim_C5.2 ⟨⟨1, 1, [[ExtQ.fin 0]]⟩, none, fun _ => .ok ⟨1, 1, [[ExtQ.fin 4]]⟩⟩
      _ ?_
    refine integratere_eq _ [ExtQ.fin 0] [] (matScale 1 ⟨1, 1, [[ExtQ.fin 4]]⟩)
      rfl rfl ?_ ?_
    · show accumLoop (fun _ => .ok ⟨1, 1, [[ExtQ.fin 4]]⟩) [[ExtQ.fin 0]] [1] none =
        .ok (matScale 1 ⟨1, 1, [[ExtQ.fin 4]]⟩)
      rw [accumLoop_cons_ok _ _ _ 1 _ none ⟨1, 1, [[ExtQ.fin 4]]⟩ rfl,
        if_pos (show shapeOk none ⟨1, 1, [[ExtQ.fin 4]]⟩ = true from rfl),
        if_pos (by decide)]
      exact accumLoop_nil_some _ _ _
    · show ¬((1 : ℕ) : ℚ) = 0
      exact Nat.cast_ne_zero.mpr one_ne_zero
